import Mathlib

/-
Verification of the pi-recall semantic memory engine.

This file gives a shallow embedding of the three core components of the
repository and proves the specified properties about them:

- src/store.ts        : the sqlite-vec backed MemoryStore (add / search /
                        delete / list / count), embedded as a pure state-passing
                        model.  The sqlite-vec index is modelled faithfully: it
                        ranks vector rows by Euclidean (L2) distance; the square
                        root used by the index is kept as an explicit function
                        parameter so that the model stays executable, and the
                        theorems assume only the properties the real square root
                        has (nonnegativity).
- extraction (parseResponse) : the defensive LLM-reply parser, embedded with a
                        fuel-based JSON parser over character lists mirroring
                        the semantics of JSON.parse, plus exact models of the
                        three regular expressions the source applies.
- src/signature.ts    : the tree-sitter query capture step and the
                        name-collection loop of extractSignature.  The query
                        patterns of the source are single-path patterns
                        "(type field: (type2) @name)"; capture collection is
                        embedded as a walk over the concrete syntax tree.

Scalars: embeddings and similarities are modelled over an arbitrary linear
ordered field (instantiated with the reals or the rationals in theorems and
witnesses); floating point rounding is outside the model, as the properties
under verification are order- and algebra-level properties.
-/

-- ============================================================================
-- Vector store model (src/store.ts)
-- ============================================================================

/-- Model of the Memory interface of src/store.ts: id, text, createdAt,
sessionId.  The embedding lives in the separate vector table, as in the
sqlite schema. -/
structure Memory where
  id : ℕ
  text : String
  createdAt : String
  sessionId : String
deriving DecidableEq

/-- Model of a row of the memories_vec virtual table: rowid plus embedding. -/
structure VecRow (α : Type) where
  rowid : ℕ
  embedding : List α
deriving DecidableEq

/-- Model of a row returned by the search SQL query: rowid, the distance
computed by the vec0 index, and the joined memory columns. -/
structure SearchRow (α : Type) where
  rowid : ℕ
  distance : α
  text : String
  createdAt : String
  sessionId : String
deriving DecidableEq

/-- Model of the MemoryMatch interface: a memory paired with its cosine
similarity. -/
structure MemoryMatch (α : Type) where
  memory : Memory
  similarity : α
deriving DecidableEq

/-- Model of the MemoryStore state: the configured embedding dimension, the
next AUTOINCREMENT rowid, and the two tables (memories and memories_vec). -/
structure MemoryStore (α : Type) where
  dimensions : ℕ
  nextId : ℕ
  memories : List Memory
  vecs : List (VecRow α)
deriving DecidableEq

/-- A fresh store with the given dimension, as built by the constructor:
both tables empty, AUTOINCREMENT starting at 1. -/
def emptyStore (α : Type) (dimensions : ℕ) : MemoryStore α :=
  { dimensions := dimensions, nextId := 1, memories := [], vecs := [] }

/-- Squared Euclidean distance between two vectors (the quantity under the
square root in the L2 distance the vec0 index ranks by). -/
def sumSqDiff {α : Type} [LinearOrderedField α] (a b : List α) : α :=
  (List.zipWith (fun x y => (x - y) * (x - y)) a b).sum

/-- Dot product of two vectors (for unit-normalized vectors this is their
cosine similarity). -/
def dotp {α : Type} [LinearOrderedField α] (a b : List α) : α :=
  (List.zipWith (fun x y => x * y) a b).sum

/-- Model of l2ToCosine from src/store.ts: convert L2 distance to cosine
similarity via 1 - distance^2 / 2. -/
def l2ToCosine {α : Type} [LinearOrderedField α] (l2Distance : α) : α :=
  1 - l2Distance * l2Distance / 2

/-- The dimension-mismatch error message thrown by add and search. -/
def dimError (expected actual : ℕ) : String :=
  ("Expected ") ++ toString expected ++ ("-dim embedding, got ") ++ toString actual

/-- Model of MemoryStore.add.  The transaction inserts the memory row and the
vector row together; the model returns the error (if any) alongside the
possibly-updated store, so a failed add visibly leaves the state unchanged.
The insertion timestamp (new Date().toISOString() in the source) is passed in
as the parameter now. -/
def MemoryStore.add {α : Type} [LinearOrderedField α] (st : MemoryStore α)
    (text : String) (embedding : List α) (sessionId : String) (now : String) :
    Except String ℕ × MemoryStore α :=
  if embedding.length ≠ st.dimensions then
    (.error (dimError st.dimensions embedding.length), st)
  else
    let rowid := st.nextId
    (.ok rowid,
      { st with
        nextId := rowid + 1
        memories := st.memories ++ [⟨rowid, text, now, sessionId⟩]
        vecs := st.vecs ++ [⟨rowid, embedding⟩] })

/-- Ordering of scored vector rows by ascending index distance (the order in
which the vec0 index returns its k nearest candidates). -/
def distLe {α : Type} [LinearOrderedField α] (a b : VecRow α × α) : Prop :=
  a.2 ≤ b.2

instance {α : Type} [LinearOrderedField α] : DecidableRel (distLe (α := α)) :=
  fun a b => inferInstanceAs (Decidable (a.2 ≤ b.2))

/-- Model of the SQL query in MemoryStore.search: the vec0 index scores every
vector row by L2 distance to the query (the square root being the index
implementation's, passed as rt), returns the k = fetchLimit nearest in
ascending distance order, and each is joined with its memories row. -/
def knnRows {α : Type} [LinearOrderedField α] (rt : α → α) (st : MemoryStore α)
    (embedding : List α) (fetchLimit : ℕ) : List (SearchRow α) :=
  let scored := st.vecs.map (fun v => (v, rt (sumSqDiff v.embedding embedding)))
  let ranked := (List.insertionSort distLe scored).take fetchLimit
  ranked.filterMap (fun vd =>
    (st.memories.find? (fun m => m.id == vd.1.rowid)).map (fun m =>
      ⟨vd.1.rowid, vd.2, m.text, m.createdAt, m.sessionId⟩))

/-- The match record built from a search row (search pushes the row columns
as a Memory plus the converted similarity). -/
def rowMatch {α : Type} [LinearOrderedField α] (row : SearchRow α) : MemoryMatch α :=
  ⟨⟨row.rowid, row.text, row.createdAt, row.sessionId⟩, l2ToCosine row.distance⟩

/-- Model of the result-accumulation loop of MemoryStore.search: iterate the
candidate rows nearest-first, convert distance to similarity, skip a row when
the similarity is below the threshold, push the match otherwise, and break
once the results reach the limit. -/
def searchLoop {α : Type} [LinearOrderedField α] (threshold : α) (limit : ℕ) :
    List (SearchRow α) → List (MemoryMatch α) → List (MemoryMatch α)
  | [], results => results
  | row :: rest, results =>
    if l2ToCosine row.distance < threshold then
      searchLoop threshold limit rest results
    else
      let results' := results ++ [rowMatch row]
      if limit ≤ results'.length then results'
      else searchLoop threshold limit rest results'

/-- Model of MemoryStore.search: dimension validation, candidate fetch of
max(limit * 2, 20) nearest rows, then the threshold/limit loop. -/
def MemoryStore.search {α : Type} [LinearOrderedField α] (rt : α → α)
    (st : MemoryStore α) (embedding : List α) (threshold : α) (limit : ℕ) :
    Except String (List (MemoryMatch α)) :=
  if embedding.length ≠ st.dimensions then
    .error (dimError st.dimensions embedding.length)
  else
    let fetchLimit := max (limit * 2) 20
    let rows := knnRows rt st embedding fetchLimit
    .ok (searchLoop threshold limit rows [])

/-- Model of MemoryStore.delete: one transaction removing the memory row and
the vector row with the given rowid. -/
def MemoryStore.delete {α : Type} [LinearOrderedField α] (st : MemoryStore α)
    (id : ℕ) : MemoryStore α :=
  { st with
    memories := st.memories.filter (fun m => m.id != id)
    vecs := st.vecs.filter (fun v => v.rowid != id) }

/-- Ordering of memories by descending created_at (ORDER BY created_at DESC;
sqlite TEXT comparison modelled by the lexicographic string order). -/
def createdDesc (a b : Memory) : Prop :=
  b.createdAt ≤ a.createdAt

instance : DecidableRel createdDesc :=
  fun a b => inferInstanceAs (Decidable (b.createdAt ≤ a.createdAt))

/-- Model of MemoryStore.list: all memories, newest first. -/
def MemoryStore.list {α : Type} [LinearOrderedField α] (st : MemoryStore α) :
    List Memory :=
  List.insertionSort createdDesc st.memories

/-- Model of MemoryStore.count: SELECT COUNT(*) FROM memories. -/
def MemoryStore.count {α : Type} [LinearOrderedField α] (st : MemoryStore α) : ℕ :=
  st.memories.length

/-- A store operation, for stating invariants over arbitrary operation
sequences: add (with its timestamp input) or delete. -/
inductive Op (α : Type) where
  | add (text : String) (embedding : List α) (sessionId : String) (now : String)
  | delete (id : ℕ)

/-- Whether an operation supplies non-empty text (vacuously true for delete). -/
def opTextOk {α : Type} (op : Op α) : Bool :=
  match op with
  | .add text _ _ _ => text != ""
  | .delete _ => true

/-- Apply one operation to a store (a failed add leaves the state unchanged,
as returned by the model of add). -/
def applyOp {α : Type} [LinearOrderedField α] (st : MemoryStore α) (op : Op α) :
    MemoryStore α :=
  match op with
  | .add text embedding sessionId now => (st.add text embedding sessionId now).2
  | .delete id => st.delete id

/-- Apply a sequence of operations in order. -/
def applyOps {α : Type} [LinearOrderedField α] (st : MemoryStore α)
    (ops : List (Op α)) : MemoryStore α :=
  ops.foldl applyOp st

-- ============================================================================
-- Memory extraction response parsing (parseResponse)
-- ============================================================================

/-- Model of an ExtractedMemory: the fact and the rationale. -/
structure ExtractedMemory where
  text : String
  rationale : String
deriving DecidableEq

/-- The whitespace class of the JavaScript regular expressions and of
String.prototype.trim, restricted to the ASCII range the inputs use. -/
def jsWs (c : Char) : Bool :=
  c == ' ' || c == '\t' || c == '\n' || c == '\r' || c == '\x0b' || c == '\x0c'

/-- Drop trailing whitespace characters from a character list. -/
def dropTrailingWs (cs : List Char) : List Char :=
  (cs.reverse.dropWhile jsWs).reverse

/-- Model of String.prototype.trim. -/
def jsTrim (s : String) : String :=
  String.mk (dropTrailingWs (s.data.dropWhile jsWs))

/-- The three backticks of a markdown code fence. -/
def fenceMarker : List Char :=
  ("```").data

/-- Model of applying the closing-fence regular expression: the match, when
it exists, spans from the start of the trailing-whitespace run preceding the
final fence to the end of the string, so the replacement removes the trailing
whitespace, the fence, and the whitespace before the fence.  When the trimmed
string does not end in a fence, the regular expression has no match and the
string is returned unchanged. -/
def stripClosing (cs : List Char) : List Char :=
  let t := dropTrailingWs cs
  if fenceMarker.isSuffixOf t then dropTrailingWs (t.take (t.length - 3))
  else cs

/-- Model of the fence-stripping step of parseResponse: when the (trimmed)
reply starts with three backticks, remove the opening fence with its optional
json language tag and the following whitespace, then remove the closing
fence. -/
def stripFences (s : String) : String :=
  let cs := s.data
  if fenceMarker.isPrefixOf cs then
    let a := cs.drop 3
    let b := if (("json").data).isPrefixOf a then a.drop 4 else a
    String.mk (stripClosing (b.dropWhile jsWs))
  else s

-- ----------------------------------------------------------------------------
-- JSON values and a model of JSON.parse
-- ----------------------------------------------------------------------------

/-- JSON values as produced by JSON.parse.  Numbers keep their source lexeme:
no claim under verification depends on numeric values.  Objects keep their
fields in source order; later duplicate keys shadow earlier ones on access,
as in JavaScript. -/
inductive Json where
  | null
  | bool (b : Bool)
  | num (raw : String)
  | str (s : String)
  | arr (items : List Json)
  | obj (fields : List (String × Json))

/-- Property access on a parsed JSON object: the last field with the given
key wins, as JSON.parse assigns fields in order. -/
def jget (fields : List (String × Json)) (key : String) : Option Json :=
  (fields.reverse.find? (fun kv => kv.1 == key)).map (fun kv => kv.2)

/-- Decode one string-escape character (after a backslash). -/
def unescapeChar (c : Char) : Char :=
  if c = 'b' then '\x08'
  else if c = 'f' then '\x0c'
  else if c = 'n' then '\n'
  else if c = 'r' then '\r'
  else if c = 't' then '\t'
  else c

/-- Hex digit value, if any. -/
def hexVal (c : Char) : Option ℕ :=
  if '0' ≤ c ∧ c ≤ '9' then some (c.toNat - ('0').toNat)
  else if 'a' ≤ c ∧ c ≤ 'f' then some (c.toNat - ('a').toNat + 10)
  else if 'A' ≤ c ∧ c ≤ 'F' then some (c.toNat - ('A').toNat + 10)
  else none

/-- The escape characters the JSON string grammar allows after a backslash
(besides the u of a unicode escape). -/
def isEscapeCh (c : Char) : Bool :=
  c == '"' || c == '\\' || c == '/' || c == 'b' || c == 'f' ||
    c == 'n' || c == 'r' || c == 't'

/-- Parse the body of a JSON string literal (after the opening quote),
returning the decoded string and the remaining input.  Raw control
characters and unknown escapes are rejected, as JSON.parse rejects them. -/
def parseStringBody : ℕ → List Char → List Char → Option (String × List Char)
  | 0, _, _ => none
  | _ + 1, _, [] => none
  | fuel + 1, acc, c :: cs =>
    if c = '"' then some (String.mk acc.reverse, cs)
    else if c = '\\' then
      match cs with
      | [] => none
      | 'u' :: h1 :: h2 :: h3 :: h4 :: rest =>
        match hexVal h1, hexVal h2, hexVal h3, hexVal h4 with
        | some a, some b, some c', some d =>
          parseStringBody fuel (Char.ofNat (((a * 16 + b) * 16 + c') * 16 + d) :: acc) rest
        | _, _, _, _ => none
      | e :: rest =>
        if isEscapeCh e then parseStringBody fuel (unescapeChar e :: acc) rest
        else none
    else if c.toNat < 32 then none
    else parseStringBody fuel (c :: acc) cs

/-- Digit test for the JSON number grammar. -/
def isDigitCh (c : Char) : Bool :=
  '0' ≤ c && c ≤ '9'

/-- Check a lexeme against the JSON number grammar:
minus? int frac? exp? with int = 0 or nonzero-leading digits. -/
def validNumber (cs : List Char) : Bool :=
  let afterSign := if cs.headD ' ' = '-' then cs.drop 1 else cs
  let intOk :=
    match afterSign with
    | [] => false
    | '0' :: _ => true
    | d :: _ => isDigitCh d
  let afterInt :=
    match afterSign with
    | '0' :: rest => rest
    | l => l.dropWhile isDigitCh
  let fracOk :=
    match afterInt with
    | '.' :: rest => decide (rest.takeWhile isDigitCh ≠ [])
    | _ => true
  let afterFrac :=
    match afterInt with
    | '.' :: rest => rest.dropWhile isDigitCh
    | l => l
  let expOk :=
    match afterFrac with
    | [] => true
    | e :: rest =>
      if e = 'e' ∨ e = 'E' then
        let body := if rest.headD ' ' = '+' ∨ rest.headD ' ' = '-' then rest.drop 1 else rest
        decide (body ≠ []) && body.all isDigitCh
      else false
  intOk && fracOk && expOk

/-- Characters that may appear in a JSON number lexeme. -/
def numChar (c : Char) : Bool :=
  isDigitCh c || c == '-' || c == '+' || c == '.' || c == 'e' || c == 'E'

mutual
/-- Parse one JSON value (leading whitespace allowed), returning the value
and the remaining input. -/
def parseValue : ℕ → List Char → Option (Json × List Char)
  | 0, _ => none
  | fuel + 1, cs =>
    match cs.dropWhile jsWs with
    | [] => none
    | c :: rest =>
      if c = '"' then
        (parseStringBody (fuel + 1) [] rest).map (fun sr => (Json.str sr.1, sr.2))
      else if c = '[' then parseArrayItems fuel rest
      else if c = '{' then parseObjFields fuel rest
      else if c = 't' then
        if (("rue").data).isPrefixOf rest then some (Json.bool true, rest.drop 3) else none
      else if c = 'f' then
        if (("alse").data).isPrefixOf rest then some (Json.bool false, rest.drop 4) else none
      else if c = 'n' then
        if (("ull").data).isPrefixOf rest then some (Json.null, rest.drop 3) else none
      else
        let lexeme := (c :: rest).takeWhile numChar
        if validNumber lexeme then
          some (Json.num (String.mk lexeme), (c :: rest).drop lexeme.length)
        else none

/-- Parse the items of a JSON array (after the opening bracket). -/
def parseArrayItems : ℕ → List Char → Option (Json × List Char)
  | 0, _ => none
  | fuel + 1, cs =>
    match cs.dropWhile jsWs with
    | ']' :: rest => some (Json.arr [], rest)
    | _ => parseArrayRest fuel [] cs

/-- Parse one array item then either a comma (more items) or the closing
bracket. -/
def parseArrayRest : ℕ → List Json → List Char → Option (Json × List Char)
  | 0, _, _ => none
  | fuel + 1, acc, cs =>
    match parseValue fuel cs with
    | none => none
    | some (v, rest) =>
      match rest.dropWhile jsWs with
      | ',' :: rest' => parseArrayRest fuel (v :: acc) rest'
      | ']' :: rest' => some (Json.arr (acc.reverse ++ [v]), rest')
      | _ => none

/-- Parse the fields of a JSON object (after the opening brace). -/
def parseObjFields : ℕ → List Char → Option (Json × List Char)
  | 0, _ => none
  | fuel + 1, cs =>
    match cs.dropWhile jsWs with
    | '}' :: rest => some (Json.obj [], rest)
    | _ => parseObjRest fuel [] cs

/-- Parse one key-value pair then either a comma (more fields) or the closing
brace. -/
def parseObjRest : ℕ → List (String × Json) → List Char → Option (Json × List Char)
  | 0, _, _ => none
  | fuel + 1, acc, cs =>
    match cs.dropWhile jsWs with
    | '"' :: rest =>
      match parseStringBody (fuel + 1) [] rest with
      | none => none
      | some (key, rest') =>
        match rest'.dropWhile jsWs with
        | ':' :: rest'' =>
          match parseValue fuel rest'' with
          | none => none
          | some (v, rest3) =>
            match rest3.dropWhile jsWs with
            | ',' :: rest4 => parseObjRest fuel ((key, v) :: acc) rest4
            | '}' :: rest4 => some (Json.obj (acc.reverse ++ [(key, v)]), rest4)
            | _ => none
        | _ => none
    | _ => none
end

/-- Model of JSON.parse: parse one value and require only whitespace to
remain; anything else fails. -/
def jsonParse (s : String) : Option Json :=
  match parseValue (2 * s.data.length + 4) s.data with
  | some (v, rest) => if (rest.dropWhile jsWs).isEmpty then some v else none
  | none => none

-- ----------------------------------------------------------------------------
-- parseResponse
-- ----------------------------------------------------------------------------

/-- Model of the fallback regular expression of parseResponse: the greedy
bracket match spans from the first opening bracket to the last closing
bracket of the whole text (when the latter comes after the former); there is
no match otherwise. -/
def firstToLastBracket (s : String) : Option String :=
  let cs := s.data
  match cs.findIdx? (fun c => c == '['), (cs.reverse.findIdx? (fun c => c == ']')) with
  | some i, some jr =>
    let j := cs.length - 1 - jr
    if i < j then some (String.mk ((cs.drop i).take (j - i + 1))) else none
  | _, _ => none

/-- Model of the per-element validation loop of parseResponse: an element
contributes a memory exactly when it is an object whose text field is a
string that is non-empty after trimming and whose rationale field is a
string; both fields are trimmed.  (In JavaScript an array also has typeof
object, but its text property is undefined, so it is rejected the same
way this model rejects it.) -/
def toMemory? (item : Json) : Option ExtractedMemory :=
  match item with
  | .obj fields =>
    match jget fields ("text"), jget fields ("rationale") with
    | some (.str t), some (.str r) =>
      if jsTrim t ≠ ("") then some ⟨jsTrim t, jsTrim r⟩ else none
    | _, _ => none
  | _ => none

/-- The validation loop over all elements of the parsed array. -/
def validateItems (items : List Json) : List ExtractedMemory :=
  items.filterMap toMemory?

/-- The Array.isArray check followed by the validation loop: a non-array
parse result yields the empty list. -/
def itemsOf (parsed : Json) : List ExtractedMemory :=
  match parsed with
  | .arr items => validateItems items
  | _ => []

/-- Model of parseResponse: trim, strip code fences, try JSON.parse; on
failure retry on the greedy bracket substring; on failure again return the
empty list.  The Array.isArray check applies to whichever parse succeeded. -/
def parseResponse (response : String) : List ExtractedMemory :=
  let json := stripFences (jsTrim response)
  match jsonParse json with
  | some parsed => itemsOf parsed
  | none =>
    match firstToLastBracket json with
    | some sub =>
      match jsonParse sub with
      | some parsed => itemsOf parsed
      | none => []
    | none => []

-- ============================================================================
-- Signature extraction model (src/signature.ts)
-- ============================================================================

/-- A node of a tree-sitter concrete syntax tree: node type, the field name
the node occupies in its parent (if any), the source text it spans, and its
named children.  Anonymous token nodes are not represented, as the query
patterns of the source reference named nodes only. -/
inductive TSNode where
  | mk (ty : String) (fieldName : Option String) (txt : String) (children : List TSNode)

/-- The node type. -/
def TSNode.ty : TSNode → String
  | .mk t _ _ _ => t

/-- The field name this node occupies in its parent. -/
def TSNode.fieldName : TSNode → Option String
  | .mk _ f _ _ => f

/-- The source text this node spans. -/
def TSNode.txt : TSNode → String
  | .mk _ _ x _ => x

/-- The named children. -/
def TSNode.children : TSNode → List TSNode
  | .mk _ _ _ c => c

mutual
/-- All nodes of the tree, the root first. -/
def TSNode.preorder : TSNode → List TSNode
  | .mk t f x c => .mk t f x c :: preorderList c
/-- All nodes of a forest in order. -/
def preorderList : List TSNode → List TSNode
  | [] => []
  | n :: ns => TSNode.preorder n ++ preorderList ns
end

/-- One tree-sitter query pattern of the source.  Every pattern appearing in
the LANGUAGES table is a single path ending in one capture, so a pattern is
the type of its outermost node plus the descent steps (field name, if
constrained, and node type); the node reached by the last step is captured
as @name. -/
structure QueryPattern where
  rootType : String
  steps : List (Option String × String)

/-- Capture collection along the descent steps of a pattern: at each step
every child with the required field and type continues the match, and the
nodes reached by the final step are the captured nodes. -/
def stepCaptures : List (Option String × String) → TSNode → List TSNode
  | [], n => [n]
  | (f, t) :: rest, n =>
    (n.children.filter (fun c => c.fieldName == f && c.ty == t)).flatMap
      (stepCaptures rest)

/-- The nodes a pattern captures when matched at a given node. -/
def patCaptures (p : QueryPattern) (n : TSNode) : List TSNode :=
  if n.ty == p.rootType then stepCaptures p.steps n else []

/-- Model of query.captures(tree.rootNode) as the source calls it: with no
maxStartDepth option, every pattern is matched at every node of the tree. -/
def queryCaptures (pats : List QueryPattern) (root : TSNode) : List TSNode :=
  root.preorder.flatMap (fun n => pats.flatMap (fun p => patCaptures p n))

/-- Capture collection restricted to matches starting at the immediate
children of the root: what the source's own comment (maxStartDepth, match
top-level declarations only) describes. -/
def topLevelCaptures (pats : List QueryPattern) (root : TSNode) : List TSNode :=
  root.children.flatMap (fun n => pats.flatMap (fun p => patCaptures p n))

/-- The typescript query of the LANGUAGES table, pattern for pattern. -/
def typescriptQuery : List QueryPattern :=
  [ ⟨("class_declaration"), [(some ("name"), ("type_identifier"))]⟩,
    ⟨("abstract_class_declaration"), [(some ("name"), ("type_identifier"))]⟩,
    ⟨("interface_declaration"), [(some ("name"), ("type_identifier"))]⟩,
    ⟨("type_alias_declaration"), [(some ("name"), ("type_identifier"))]⟩,
    ⟨("function_declaration"), [(some ("name"), ("identifier"))]⟩,
    ⟨("enum_declaration"), [(some ("name"), ("identifier"))]⟩,
    ⟨("export_statement"),
      [(some ("declaration"), ("class_declaration")), (some ("name"), ("type_identifier"))]⟩,
    ⟨("export_statement"),
      [(some ("declaration"), ("abstract_class_declaration")), (some ("name"), ("type_identifier"))]⟩,
    ⟨("export_statement"),
      [(some ("declaration"), ("interface_declaration")), (some ("name"), ("type_identifier"))]⟩,
    ⟨("export_statement"),
      [(some ("declaration"), ("type_alias_declaration")), (some ("name"), ("type_identifier"))]⟩,
    ⟨("export_statement"),
      [(some ("declaration"), ("function_declaration")), (some ("name"), ("identifier"))]⟩,
    ⟨("export_statement"),
      [(some ("declaration"), ("enum_declaration")), (some ("name"), ("identifier"))]⟩,
    ⟨("export_statement"),
      [(some ("declaration"), ("lexical_declaration")), (none, ("variable_declarator")),
       (some ("name"), ("identifier"))]⟩,
    ⟨("lexical_declaration"), [(none, ("variable_declarator")), (some ("name"), ("identifier"))]⟩ ]

/-- Model of the name-collection loop of extractSignature: trim each captured
node's text; skip empty strings and names already collected; keep first-seen
order.  (The source's seen set always holds exactly the collected names, so
membership in the accumulator models it.) -/
def collectNames (texts : List String) : List String :=
  texts.foldl
    (fun ns t0 =>
      let t := jsTrim t0
      if t ≠ ("") ∧ t ∉ ns then ns ++ [t] else ns)
    []

/-- Model of extractSignature after language detection and parsing: run the
query captures, collect the names, and return none when no names remain,
else the path joined with the names. -/
def extractSignature (filePath : String) (pats : List QueryPattern)
    (root : TSNode) : Option String :=
  let captures := queryCaptures pats root
  let names := collectNames (captures.map TSNode.txt)
  if names = [] then none
  else some (filePath ++ (" | ") ++ String.intercalate (" | ") names)

/-- Deduplication keeping the first occurrence, written from the words of the
spec, for comparison with the collection loop of the source. -/
def dedupFirst : List String → List String
  | [] => []
  | x :: xs => x :: (dedupFirst xs).filter (fun y => y ≠ x)

/-- The name list described by the spec: captured texts, whitespace-trimmed,
empty strings dropped, deduplicated by exact string equality with first-seen
order preserved. -/
def specNames (texts : List String) : List String :=
  dedupFirst ((texts.map jsTrim).filter (fun t => t ≠ ("")))

/-- The concrete syntax tree tree-sitter-typescript produces for the file
content "function outer() { function inner() {} }": a top-level function
declaration whose body contains a nested function declaration. -/
def nestedFnTree : TSNode :=
  .mk ("program") none ("function outer() { function inner() {} }")
    [ .mk ("function_declaration") none ("function outer() { function inner() {} }")
        [ .mk ("identifier") (some ("name")) ("outer") [],
          .mk ("formal_parameters") (some ("parameters")) ("()") [],
          .mk ("statement_block") (some ("body")) ("{ function inner() {} }")
            [ .mk ("function_declaration") none ("function inner() {}")
                [ .mk ("identifier") (some ("name")) ("inner") [],
                  .mk ("formal_parameters") (some ("parameters")) ("()") [],
                  .mk ("statement_block") (some ("body")) ("{}") [] ] ] ] ]

-- ============================================================================
-- Spec-side definitions used to state the claims
-- ============================================================================

/-- A reply wrapped in markdown code fences, with or without the json
language tag. -/
def wrapFence (tagged : Bool) (s : String) : String :=
  (if tagged then ("```json\n") else ("```\n")) ++ s ++ ("\n```")

/-- The fallback branch of parseResponse in isolation: parse the greedy
bracket substring, or return the empty list. -/
def fallbackOf (json : String) : List ExtractedMemory :=
  match firstToLastBracket json with
  | some sub =>
    match jsonParse sub with
    | some parsed => itemsOf parsed
    | none => []
  | none => []

/-- Both fallback attempts fail: the bracket substring, when it exists, does
not parse either. -/
def fallbackFails (json : String) : Prop :=
  ∀ sub, firstToLastBracket json = some sub → jsonParse sub = none

/-- Scan for the closing bracket balancing the opening bracket the scan
starts at, accumulating the scanned characters. -/
def scanBal (depth : ℕ) (acc : List Char) : List Char → Option String
  | [] => none
  | c :: cs =>
    if c = '[' then scanBal (depth + 1) (acc ++ [c]) cs
    else if c = ']' then
      if depth = 1 then some (String.mk (acc ++ [c]))
      else scanBal (depth - 1) (acc ++ [c]) cs
    else scanBal depth (acc ++ [c]) cs

/-- Modelled from the spec: the first balanced top-level array literal within
the text (the substring from the first opening bracket to the bracket
balancing it). -/
def firstBalancedArray (json : String) : Option String :=
  scanBal 0 [] (json.data.dropWhile (fun c => c != '['))

/-- Modelled from the spec: parseResponse as the spec describes it, with the
fallback locating the first balanced top-level array literal instead of the
greedy first-to-last bracket span the source implements. -/
def parseResponseSpec (response : String) : List ExtractedMemory :=
  let json := stripFences (jsTrim response)
  match jsonParse json with
  | some parsed => itemsOf parsed
  | none =>
    match firstBalancedArray json with
    | some sub =>
      match jsonParse sub with
      | some parsed => itemsOf parsed
      | none => []
    | none => []

/-- The non-empty-text invariant on a store's memories table. -/
def textsOk {α : Type} (st : MemoryStore α) : Prop :=
  ∀ m ∈ st.memories, m.text ≠ ""

/-- A one-memory store over the rationals, used as concrete input: dimension
1, one memory row with matching vector row. -/
def oneRowStore : MemoryStore ℚ :=
  { dimensions := 1, nextId := 2,
    memories := [⟨1, ("events use soft-deletes"), ("2024-01-01"), ("s1")⟩],
    vecs := [⟨1, [0]⟩] }

/-- Modelled from the spec: whether an element of the parsed array is
accepted — an object whose text field is a string, non-empty after trimming,
and whose rationale field is a string. -/
def isValidItem (item : Json) : Bool :=
  match item with
  | .obj fields =>
    (match jget fields ("text") with
     | some (.str t) => jsTrim t != ("")
     | _ => false) &&
    (match jget fields ("rationale") with
     | some (.str _) => true
     | _ => false)
  | _ => false

/-- The string held by an object field, empty when absent or not a string. -/
def fieldStr (fields : List (String × Json)) (key : String) : String :=
  match jget fields key with
  | some (.str t) => t
  | _ => ""

/-- Modelled from the spec: the memory an accepted element contributes, with
both fields whitespace-trimmed. -/
def trimmedMemory (item : Json) : ExtractedMemory :=
  match item with
  | .obj fields => ⟨jsTrim (fieldStr fields ("text")), jsTrim (fieldStr fields ("rationale"))⟩
  | _ => ⟨"", ""⟩

instance {α : Type} [LinearOrderedField α] : IsTotal (VecRow α × α) distLe :=
  ⟨fun a b => le_total a.2 b.2⟩

instance {α : Type} [LinearOrderedField α] : IsTrans (VecRow α × α) distLe :=
  ⟨fun _ _ _ => le_trans⟩

/-- The candidate rows of a search, given a matching query dimension. -/
def searchRows {α : Type} [LinearOrderedField α] (rt : α → α) (st : MemoryStore α)
    (embedding : List α) (limit : ℕ) : List (SearchRow α) :=
  knnRows rt st embedding (max (limit * 2) 20)


-- ============================================================================
-- Helper lemmas: the search pipeline
-- ============================================================================

/-- The accumulation loop of search equals: filter the candidates by
threshold, convert to matches, and truncate.  The truncation length is
max limit 1 because the loop checks the limit only after pushing a match. -/
theorem searchLoop_eq {α : Type} [LinearOrderedField α] (t : α) (k : ℕ) :
    ∀ (rows : List (SearchRow α)) (acc : List (MemoryMatch α)),
      acc.length < max k 1 →
      searchLoop t k rows acc =
        acc ++ ((rows.filter (fun r => decide (t ≤ l2ToCosine r.distance))).map
          rowMatch).take (max k 1 - acc.length) := by
  intro rows
  induction rows with
  | nil => intro acc hacc; simp [searchLoop]
  | cons row rest ih =>
    intro acc hacc
    by_cases h : l2ToCosine row.distance < t
    · have hd : (decide (t ≤ l2ToCosine row.distance)) = false := by
        simpa using not_le.mpr h
      rw [searchLoop, if_pos h, ih acc hacc, List.filter_cons, hd]
      simp
    · have ht : t ≤ l2ToCosine row.distance := not_lt.mp h
      have hd : (decide (t ≤ l2ToCosine row.distance)) = true := by simpa using ht
      rw [searchLoop, if_neg h]
      simp only [List.filter_cons, hd, if_true, List.map_cons]
      by_cases hk : k ≤ (acc ++ [rowMatch row]).length
      · rw [if_pos hk]
        have hlen : max k 1 - acc.length = 1 := by
          simp only [List.length_append, List.length_cons, List.length_nil] at hk
          omega
        rw [hlen, List.take_succ_cons, List.take_zero]
      · rw [if_neg hk]
        have hlen : (acc ++ [rowMatch row]).length < max k 1 := by
          simp only [List.length_append, List.length_cons, List.length_nil] at hk ⊢
          omega
        rw [ih _ hlen]
        have harith : max k 1 - acc.length = (max k 1 - (acc ++ [rowMatch row]).length) + 1 := by
          simp only [List.length_append, List.length_cons, List.length_nil]
          omega
        rw [harith, List.take_succ_cons, List.append_assoc]
        rfl

/-- What a dimension-correct search returns: the candidate rows filtered by
threshold, converted, truncated at max limit 1. -/
theorem search_eq_ok {α : Type} [LinearOrderedField α] (rt : α → α)
    (st : MemoryStore α) (embedding : List α) (threshold : α) (limit : ℕ)
    (h : embedding.length = st.dimensions) :
    MemoryStore.search rt st embedding threshold limit =
      .ok ((((searchRows rt st embedding limit).filter
        (fun r => decide (threshold ≤ l2ToCosine r.distance))).map rowMatch).take
          (max limit 1)) := by
  rw [MemoryStore.search, if_neg (by simp [h])]
  simp only []
  rw [searchLoop_eq threshold limit _ [] (by simp)]
  rfl

/-- Any ok result of search is the canonical filtered/truncated list. -/
theorem search_ok_elim {α : Type} [LinearOrderedField α] {rt : α → α}
    {st : MemoryStore α} {embedding : List α} {threshold : α} {limit : ℕ}
    {res : List (MemoryMatch α)}
    (hres : MemoryStore.search rt st embedding threshold limit = .ok res) :
    embedding.length = st.dimensions ∧
      res = (((searchRows rt st embedding limit).filter
        (fun r => decide (threshold ≤ l2ToCosine r.distance))).map rowMatch).take
          (max limit 1) := by
  by_cases h : embedding.length = st.dimensions
  · refine ⟨h, ?_⟩
    rw [search_eq_ok rt st embedding threshold limit h] at hres
    exact (Except.ok.injEq _ _ ▸ hres.symm).symm ▸ (Except.ok.inj hres).symm
  · rw [MemoryStore.search, if_pos (by simpa using h)] at hres
    exact absurd hres (by simp)

/-- The candidate rows come back in ascending distance order. -/
theorem knnRows_sorted {α : Type} [LinearOrderedField α] (rt : α → α)
    (st : MemoryStore α) (embedding : List α) (fetchLimit : ℕ) :
    List.Pairwise (fun r1 r2 : SearchRow α => r1.distance ≤ r2.distance)
      (knnRows rt st embedding fetchLimit) := by
  unfold knnRows
  simp only []
  refine List.Pairwise.filterMap _ ?_
    ((List.sorted_insertionSort distLe _).sublist (List.take_sublist _ _))
  intro a a' hle b hb b' hb'
  simp only [Option.mem_def, Option.map_eq_some'] at hb hb'
  obtain ⟨m, _, rfl⟩ := hb
  obtain ⟨m', _, rfl⟩ := hb'
  exact hle

/-- Every candidate row originates from a vector row of the store: its rowid
and distance are that row's, and its memory columns come from the memories
row found by the join. -/
theorem knnRows_mem {α : Type} [LinearOrderedField α] {rt : α → α}
    {st : MemoryStore α} {embedding : List α} {fetchLimit : ℕ}
    {row : SearchRow α} (h : row ∈ knnRows rt st embedding fetchLimit) :
    ∃ v ∈ st.vecs, row.rowid = v.rowid ∧
      row.distance = rt (sumSqDiff v.embedding embedding) ∧
      ∃ m, st.memories.find? (fun m => m.id == v.rowid) = some m ∧
        row.text = m.text ∧ row.createdAt = m.createdAt ∧
        row.sessionId = m.sessionId := by
  unfold knnRows at h
  simp only [List.mem_filterMap, Option.map_eq_some'] at h
  obtain ⟨vd, hvd, m, hfind, rfl⟩ := h
  have hvd' : vd ∈ List.insertionSort distLe
      (st.vecs.map (fun v => (v, rt (sumSqDiff v.embedding embedding)))) :=
    List.mem_of_mem_take hvd
  have hvd'' : vd ∈ st.vecs.map (fun v => (v, rt (sumSqDiff v.embedding embedding))) :=
    (List.perm_insertionSort distLe _).mem_iff.mp hvd'
  simp only [List.mem_map] at hvd''
  obtain ⟨v, hv, rfl⟩ := hvd''
  exact ⟨v, hv, rfl, rfl, m, hfind, rfl, rfl, rfl⟩

/-- With a nonnegative square root, candidate rows are sorted by descending
converted similarity: on nonnegative distances the conversion
1 - d * d / 2 is antitone. -/
theorem knnRows_sim_sorted {α : Type} [LinearOrderedField α] {rt : α → α}
    (hnn : ∀ x, 0 ≤ rt x) (st : MemoryStore α) (embedding : List α)
    (fetchLimit : ℕ) :
    List.Pairwise
      (fun r1 r2 : SearchRow α => l2ToCosine r2.distance ≤ l2ToCosine r1.distance)
      (knnRows rt st embedding fetchLimit) := by
  refine (knnRows_sorted rt st embedding fetchLimit).imp_of_mem ?_
  intro r1 r2 h1 h2 hle
  obtain ⟨v1, _, _, hd1, _⟩ := knnRows_mem h1
  have h0 : (0 : α) ≤ r1.distance := hd1 ▸ hnn _
  unfold l2ToCosine
  have hsq : r1.distance * r1.distance ≤ r2.distance * r2.distance :=
    mul_self_le_mul_self h0 hle
  have : r1.distance * r1.distance / 2 ≤ r2.distance * r2.distance / 2 := by
    linarith
  linarith

/-- Raising the threshold turns the filtered candidate list into a prefix:
on a similarity-descending list the threshold filter keeps an initial
segment. -/
theorem filter_threshold_append {α : Type} [LinearOrderedField α]
    {l : List (SearchRow α)} {t1 t2 : α}
    (hs : List.Pairwise
      (fun r1 r2 : SearchRow α => l2ToCosine r2.distance ≤ l2ToCosine r1.distance) l)
    (h12 : t1 ≤ t2) :
    ∃ suffix,
      l.filter (fun r => decide (t1 ≤ l2ToCosine r.distance)) =
        l.filter (fun r => decide (t2 ≤ l2ToCosine r.distance)) ++ suffix := by
  induction l with
  | nil => exact ⟨[], rfl⟩
  | cons x xs ih =>
    rw [List.pairwise_cons] at hs
    obtain ⟨hx, hxs⟩ := hs
    by_cases h2 : t2 ≤ l2ToCosine x.distance
    · obtain ⟨suffix, hsuf⟩ := ih hxs
      refine ⟨suffix, ?_⟩
      rw [List.filter_cons, List.filter_cons]
      have d1 : (decide (t1 ≤ l2ToCosine x.distance)) = true := by
        simpa using le_trans h12 h2
      have d2 : (decide (t2 ≤ l2ToCosine x.distance)) = true := by simpa using h2
      rw [d1, d2]
      simpa using hsuf
    · have hnil : xs.filter (fun r => decide (t2 ≤ l2ToCosine r.distance)) = [] := by
        rw [List.filter_eq_nil_iff]
        intro y hy
        simp only [decide_eq_true_eq]
        intro hty
        exact h2 (le_trans hty (hx y hy))
      refine ⟨(x :: xs).filter (fun r => decide (t1 ≤ l2ToCosine r.distance)), ?_⟩
      rw [List.filter_cons]
      simp [h2, hnil]

-- ============================================================================
-- C1: search result count, threshold filter, descending order
-- ============================================================================

/-- C1 (amended): for every store state, query embedding of the configured
dimension, threshold, and limit k, search returns at most max k 1 results
(so at most k whenever k is positive; for k = 0 one result can still be
returned, because the limit check runs only after a match is pushed), every
result has similarity at least the threshold, and the results are sorted by
descending similarity.  Candidates are consumed nearest-first, converted,
dropped below threshold, and accumulation stops at the limit or when
candidates run out.  The square root of the index is any nonnegative
function, the real square root in particular. -/
theorem C1_search_limit_threshold_order {α : Type} [LinearOrderedField α]
    (rt : α → α) (hnn : ∀ x, 0 ≤ rt x) (st : MemoryStore α)
    (embedding : List α) (threshold : α) (limit : ℕ)
    (res : List (MemoryMatch α))
    (hres : MemoryStore.search rt st embedding threshold limit = .ok res) :
    res.length ≤ max limit 1 ∧ (1 ≤ limit → res.length ≤ limit) ∧
      (∀ m ∈ res, threshold ≤ m.similarity) ∧
      List.Pairwise (fun a b : MemoryMatch α => b.similarity ≤ a.similarity) res := by
  obtain ⟨hdim, rfl⟩ := search_ok_elim hres
  refine ⟨?_, ?_, ?_, ?_⟩
  · exact le_trans (List.length_take_le _ _) le_rfl
  · intro h1
    have : max limit 1 = limit := by omega
    calc (List.take (max limit 1) _).length ≤ max limit 1 := List.length_take_le _ _
    _ = limit := this
  · intro m hm
    have hm' := List.mem_of_mem_take hm
    simp only [List.mem_map, List.mem_filter, decide_eq_true_eq] at hm'
    obtain ⟨row, ⟨_, hrow⟩, rfl⟩ := hm'
    exact hrow
  · refine List.Pairwise.sublist (List.take_sublist _ _) ?_
    refine (List.pairwise_map).mpr ?_
    refine List.Pairwise.filter _ ?_
    exact knnRows_sim_sorted hnn st embedding _

/-- Witness for C1 at a concrete input: dimension-4 empty store, zero query,
threshold 0, limit 5. -/
theorem C1_search_limit_threshold_order_witness :
    ([] : List (MemoryMatch ℚ)).length ≤ max 5 1 ∧
      (1 ≤ 5 → ([] : List (MemoryMatch ℚ)).length ≤ 5) ∧
      (∀ m ∈ ([] : List (MemoryMatch ℚ)), (0 : ℚ) ≤ m.similarity) ∧
      List.Pairwise (fun a b : MemoryMatch ℚ => b.similarity ≤ a.similarity)
        ([] : List (MemoryMatch ℚ)) :=
  C1_search_limit_threshold_order (fun _ => 0) (fun _ => le_refl 0)
    (emptyStore ℚ 4) [0, 0, 0, 0] 0 5 [] rfl

/-- Counterexample to C1 as stated: with limit = 0 the loop pushes one match
and only then checks the limit, so search on a one-row store returns one
result, not at most zero. -/
theorem C1_limit_zero_counterexample :
    MemoryStore.search (fun _ => (0 : ℚ)) oneRowStore [0] 0 0 =
      .ok [⟨⟨1, ("events use soft-deletes"), ("2024-01-01"), ("s1")⟩, 1⟩] ∧
      ¬ ([⟨⟨1, ("events use soft-deletes"), ("2024-01-01"), ("s1")⟩, (1 : ℚ)⟩] :
          List (MemoryMatch ℚ)).length ≤ 0 := by
  constructor
  · norm_num [MemoryStore.search, knnRows, searchLoop, rowMatch, l2ToCosine,
      sumSqDiff, oneRowStore, List.insertionSort, List.orderedInsert,
      List.filterMap, List.find?]
  · simp

-- ============================================================================
-- C3: threshold monotonicity
-- ============================================================================

/-- C3: for one store, query, and limit, the result set at a higher threshold
is a subset of the result set at a lower one, and a memory whose converted
cosine similarity to the query is below the threshold never appears in the
results at that threshold (stated for stores whose vector rowids are
distinct, which the primary key guarantees). -/
theorem C3_threshold_monotone {α : Type} [LinearOrderedField α]
    (rt : α → α) (hnn : ∀ x, 0 ≤ rt x) (st : MemoryStore α)
    (embedding : List α) (limit : ℕ) (t1 t2 : α) (h12 : t1 ≤ t2)
    (res1 res2 : List (MemoryMatch α))
    (h1 : MemoryStore.search rt st embedding t1 limit = .ok res1)
    (h2 : MemoryStore.search rt st embedding t2 limit = .ok res2) :
    (∀ m ∈ res2, m ∈ res1) ∧ (∀ m ∈ res2, t2 ≤ m.similarity) ∧
      ((st.vecs.map VecRow.rowid).Nodup →
        ∀ v ∈ st.vecs, l2ToCosine (rt (sumSqDiff v.embedding embedding)) < t2 →
          ∀ m ∈ res2, m.memory.id ≠ v.rowid) := by
  obtain ⟨hdim, hr1⟩ := search_ok_elim h1
  obtain ⟨-, hr2⟩ := search_ok_elim h2
  obtain ⟨suffix, hsuf⟩ :=
    filter_threshold_append (l := searchRows rt st embedding limit)
      (knnRows_sim_sorted hnn st embedding _) h12
  refine ⟨?_, ?_, ?_⟩
  · intro m hm
    rw [hr1, hsuf, List.map_append, List.take_append_eq_append_take]
    rw [hr2] at hm
    exact List.mem_append_left _ hm
  · intro m hm
    rw [hr2] at hm
    have hm' := List.mem_of_mem_take hm
    simp only [List.mem_map, List.mem_filter, decide_eq_true_eq] at hm'
    obtain ⟨row, ⟨_, hrow⟩, rfl⟩ := hm'
    exact hrow
  · intro hnodup v hv hvsim m hm hid
    rw [hr2] at hm
    have hm' := List.mem_of_mem_take hm
    simp only [List.mem_map, List.mem_filter, decide_eq_true_eq] at hm'
    obtain ⟨row, ⟨hrowmem, hrow⟩, rfl⟩ := hm'
    obtain ⟨v', hv', hrid, hrdist, -⟩ := knnRows_mem hrowmem
    have hvv : v' = v := by
      refine List.inj_on_of_nodup_map hnodup hv' hv ?_
      have : (rowMatch row).memory.id = row.rowid := rfl
      rw [this] at hid
      rw [← hrid, hid]
    rw [← hvv, ← hrdist] at hvsim
    exact absurd hrow (not_le.mpr hvsim)

/-- Witness for C3 at a concrete input: dimension-4 empty store, equal
thresholds 0, limit 5. -/
theorem C3_threshold_monotone_witness :
    (∀ m ∈ ([] : List (MemoryMatch ℚ)), m ∈ ([] : List (MemoryMatch ℚ))) ∧
      (∀ m ∈ ([] : List (MemoryMatch ℚ)), (0 : ℚ) ≤ m.similarity) ∧
      (((emptyStore ℚ 4).vecs.map VecRow.rowid).Nodup →
        ∀ v ∈ (emptyStore ℚ 4).vecs,
          l2ToCosine ((fun _ => (0 : ℚ)) (sumSqDiff v.embedding [0, 0, 0, 0])) < 0 →
          ∀ m ∈ ([] : List (MemoryMatch ℚ)), m.memory.id ≠ v.rowid) :=
  C3_threshold_monotone (fun _ => 0) (fun _ => le_refl 0) (emptyStore ℚ 4)
    [0, 0, 0, 0] 5 0 0 (le_refl 0) [] [] rfl rfl

-- ============================================================================
-- C2: the distance-to-similarity conversion
-- ============================================================================

/-- Polarization identity for the squared difference: for equal-length
vectors, the squared Euclidean distance is the sum of the squared norms
minus twice the dot product. -/
theorem sumSqDiff_eq_dot {α : Type} [LinearOrderedField α] :
    ∀ (a b : List α), a.length = b.length →
      sumSqDiff a b = dotp a a - 2 * dotp a b + dotp b b := by
  intro a
  induction a with
  | nil =>
    intro b hb
    cases b with
    | nil => simp [sumSqDiff, dotp]
    | cons y ys => simp at hb
  | cons x xs ih =>
    intro b hb
    cases b with
    | nil => simp at hb
    | cons y ys =>
      simp only [List.length_cons, Nat.succ.injEq] at hb
      simp only [sumSqDiff, dotp, List.zipWith_cons_cons, List.sum_cons] at ih ⊢
      rw [ih ys hb]
      ring

/-- C2: for every real L2 distance d at least 0, the conversion computes
1 - d * d / 2; for unit-normalized vectors a and b whose distance is d this
equals the dot product of a and b — their cosine similarity, as both norms
are 1 — and the identity that the squared distance equals 2 minus twice the
cosine holds exactly. -/
theorem C2_l2_to_cosine_identity (a b : List ℝ) (d : ℝ)
    (hlen : a.length = b.length) (ha : dotp a a = 1) (hb : dotp b b = 1)
    (_hd : 0 ≤ d) (hdist : d * d = sumSqDiff a b) :
    l2ToCosine d = dotp a b ∧ sumSqDiff a b = 2 - 2 * dotp a b := by
  have hkey := sumSqDiff_eq_dot a b hlen
  rw [ha, hb] at hkey
  constructor
  · unfold l2ToCosine
    rw [hdist, hkey]
    ring
  · rw [hkey]
    ring

/-- Witness for C2 at a concrete input: the unit vectors a = b = the
one-dimensional 1, at distance 0. -/
theorem C2_l2_to_cosine_identity_witness :
    l2ToCosine (0 : ℝ) = dotp [(1 : ℝ)] [(1 : ℝ)] ∧
      sumSqDiff [(1 : ℝ)] [(1 : ℝ)] = 2 - 2 * dotp [(1 : ℝ)] [(1 : ℝ)] :=
  C2_l2_to_cosine_identity [1] [1] 0 rfl (by simp [dotp]) (by simp [dotp])
    (le_refl 0) (by simp [sumSqDiff])

-- ============================================================================
-- C6: dimension validation
-- ============================================================================

/-- C6: calling add or search with an embedding whose length differs from
the configured dimension fails with the dimension-mismatch error naming the
expected and actual lengths and leaves the store unchanged: no row is
inserted and count is the same. -/
theorem C6_dimension_mismatch {α : Type} [LinearOrderedField α]
    (st : MemoryStore α) (text : String) (embedding : List α)
    (sessionId now : String) (h : embedding.length ≠ st.dimensions) :
    MemoryStore.add st text embedding sessionId now =
      (.error (dimError st.dimensions embedding.length), st) ∧
    (MemoryStore.add st text embedding sessionId now).2 = st ∧
    MemoryStore.count (MemoryStore.add st text embedding sessionId now).2 =
      MemoryStore.count st ∧
    ∀ (rt : α → α) (threshold : α) (limit : ℕ),
      MemoryStore.search rt st embedding threshold limit =
        .error (dimError st.dimensions embedding.length) := by
  have hadd : MemoryStore.add st text embedding sessionId now =
      (.error (dimError st.dimensions embedding.length), st) := by
    rw [MemoryStore.add, if_pos h]
  refine ⟨hadd, by rw [hadd], by rw [hadd], ?_⟩
  intro rt threshold limit
  rw [MemoryStore.search, if_pos h]

/-- Witness for C6 at a concrete input: a length-1 embedding against a
dimension-4 store. -/
theorem C6_dimension_mismatch_witness :
    MemoryStore.add (emptyStore ℚ 4) ("memo") [0] ("s1") ("2024") =
      (.error (dimError 4 1), emptyStore ℚ 4) ∧
    MemoryStore.count (MemoryStore.add (emptyStore ℚ 4) ("memo") [0] ("s1") ("2024")).2 =
      MemoryStore.count (emptyStore ℚ 4) ∧
    MemoryStore.search (fun _ => (0 : ℚ)) (emptyStore ℚ 4) [0] 0 5 =
      .error (dimError 4 1) := by
  have h := C6_dimension_mismatch (emptyStore ℚ 4) ("memo") [0] ("s1") ("2024")
    (by decide)
  exact ⟨h.1, h.2.2.1, h.2.2.2 (fun _ => 0) 0 5⟩

-- ============================================================================
-- C8: delete
-- ============================================================================

/-- C8: delete removes the memory from the list output and from any future
search match (both table rows go in one transaction), and deleting an id
not present in either table is a no-op that raises no error and leaves
count unchanged. -/
theorem C8_delete_removes_and_noop {α : Type} [LinearOrderedField α]
    (st : MemoryStore α) (id : ℕ) :
    (∀ m ∈ MemoryStore.list (MemoryStore.delete st id), m.id ≠ id) ∧
    (∀ (rt : α → α) (q : List α) (t : α) (k : ℕ)
        (res : List (MemoryMatch α)),
      MemoryStore.search rt (MemoryStore.delete st id) q t k = .ok res →
      ∀ mm ∈ res, mm.memory.id ≠ id) ∧
    (id ∉ st.memories.map Memory.id → id ∉ st.vecs.map VecRow.rowid →
      MemoryStore.delete st id = st ∧
      MemoryStore.count (MemoryStore.delete st id) = MemoryStore.count st) := by
  refine ⟨?_, ?_, ?_⟩
  · intro m hm
    rw [MemoryStore.list] at hm
    have hm' := (List.perm_insertionSort createdDesc _).mem_iff.mp hm
    have := (List.mem_filter.mp hm').2
    simpa using this
  · intro rt q t k res hres mm hmm
    obtain ⟨-, rfl⟩ := search_ok_elim hres
    have hmm' := List.mem_of_mem_take hmm
    simp only [List.mem_map, List.mem_filter] at hmm'
    obtain ⟨row, ⟨hrowmem, -⟩, rfl⟩ := hmm'
    obtain ⟨v, hv, hrid, -⟩ := knnRows_mem hrowmem
    have hvne : v.rowid ≠ id := by
      have := (List.mem_filter.mp hv).2
      simpa using this
    have : (rowMatch row).memory.id = row.rowid := rfl
    rw [this, hrid]
    exact hvne
  · intro hmem hvec
    have h1 : st.memories.filter (fun m => m.id != id) = st.memories := by
      rw [List.filter_eq_self]
      intro m hm
      simp only [bne_iff_ne, ne_eq, decide_eq_true_eq]
      intro heq
      exact hmem (List.mem_map.mpr ⟨m, hm, heq⟩)
    have h2 : st.vecs.filter (fun v => v.rowid != id) = st.vecs := by
      rw [List.filter_eq_self]
      intro v hv
      simp only [bne_iff_ne, ne_eq, decide_eq_true_eq]
      intro heq
      exact hvec (List.mem_map.mpr ⟨v, hv, heq⟩)
    have heq : MemoryStore.delete st id = st := by
      rw [MemoryStore.delete, h1, h2]
    exact ⟨heq, by rw [heq]⟩

/-- Witness for C8 at a concrete input: deleting the absent id 5 from the
one-row store is a no-op, and the deleted id never resurfaces. -/
theorem C8_delete_removes_and_noop_witness :
    (∀ m ∈ MemoryStore.list (MemoryStore.delete oneRowStore 5), m.id ≠ 5) ∧
      MemoryStore.delete oneRowStore 5 = oneRowStore ∧
      MemoryStore.count (MemoryStore.delete oneRowStore 5) =
        MemoryStore.count oneRowStore := by
  have h := C8_delete_removes_and_noop oneRowStore 5
  have hnoop := h.2.2 (by decide) (by decide)
  exact ⟨h.1, hnoop.1, hnoop.2⟩

-- ============================================================================
-- C10: the non-empty-text invariant
-- ============================================================================

/-- One operation preserves the non-empty-text invariant when the operation
itself supplies non-empty text. -/
theorem textsOk_applyOp {α : Type} [LinearOrderedField α]
    {st : MemoryStore α} {op : Op α} (hst : textsOk st)
    (hop : opTextOk op = true) : textsOk (applyOp st op) := by
  cases op with
  | add text embedding sessionId now =>
    simp only [opTextOk, bne_iff_ne, ne_eq, decide_eq_true_eq] at hop
    intro m hm
    rw [applyOp, MemoryStore.add] at hm
    by_cases hdim : embedding.length ≠ st.dimensions
    · rw [if_pos hdim] at hm
      exact hst m hm
    · rw [if_neg hdim] at hm
      simp only [List.mem_append, List.mem_singleton] at hm
      cases hm with
      | inl h => exact hst m h
      | inr h => rw [h]; exact hop
  | delete id =>
    intro m hm
    rw [applyOp, MemoryStore.delete] at hm
    exact hst m (List.mem_of_mem_filter hm)

/-- A sequence of operations with non-empty texts preserves the invariant. -/
theorem textsOk_applyOps {α : Type} [LinearOrderedField α] :
    ∀ (ops : List (Op α)) (st : MemoryStore α), textsOk st →
      (∀ op ∈ ops, opTextOk op = true) → textsOk (applyOps st ops) := by
  intro ops
  induction ops with
  | nil => intro st hst _; exact hst
  | cons op rest ih =>
    intro st hst hops
    rw [applyOps, List.foldl_cons]
    exact ih _ (textsOk_applyOp hst (hops op (by simp)))
      (fun o ho => hops o (by simp [ho]))

/-- C10 (amended): when every add of an operation sequence supplies
non-empty text, every record reachable via list or search on the resulting
store has non-empty text.  (The store itself does not enforce this: add
inserts whatever text it is given.) -/
theorem C10_nonempty_text_invariant {α : Type} [LinearOrderedField α]
    (dims : ℕ) (ops : List (Op α)) (h : ∀ op ∈ ops, opTextOk op = true) :
    (∀ m ∈ MemoryStore.list (applyOps (emptyStore α dims) ops), m.text ≠ "") ∧
    (∀ (rt : α → α) (q : List α) (t : α) (k : ℕ)
        (res : List (MemoryMatch α)),
      MemoryStore.search rt (applyOps (emptyStore α dims) ops) q t k = .ok res →
      ∀ mm ∈ res, mm.memory.text ≠ "") := by
  have hok : textsOk (applyOps (emptyStore α dims) ops) :=
    textsOk_applyOps ops _ (fun m hm => absurd hm (by simp [emptyStore])) h
  constructor
  · intro m hm
    rw [MemoryStore.list] at hm
    exact hok m ((List.perm_insertionSort createdDesc _).mem_iff.mp hm)
  · intro rt q t k res hres mm hmm
    obtain ⟨-, rfl⟩ := search_ok_elim hres
    have hmm' := List.mem_of_mem_take hmm
    simp only [List.mem_map, List.mem_filter] at hmm'
    obtain ⟨row, ⟨hrowmem, -⟩, rfl⟩ := hmm'
    obtain ⟨v, hv, -, -, m, hfind, htext, -⟩ := knnRows_mem hrowmem
    have hmem : m ∈ (applyOps (emptyStore α dims) ops).memories :=
      List.mem_of_find?_eq_some hfind
    have : (rowMatch row).memory.text = row.text := rfl
    rw [this, htext]
    exact hok m hmem

/-- Witness for C10 at a concrete input: one add with non-empty text; the
inserted record is reachable via list and its text is non-empty. -/
theorem C10_nonempty_text_invariant_witness :
    (⟨1, ("hello"), ("2024"), ("s1")⟩ : Memory) ∈ MemoryStore.list
        (applyOps (emptyStore ℚ 1) [Op.add ("hello") [0] ("s1") ("2024")]) ∧
      (⟨1, ("hello"), ("2024"), ("s1")⟩ : Memory).text ≠ "" := by
  have hmem : (⟨1, ("hello"), ("2024"), ("s1")⟩ : Memory) ∈ MemoryStore.list
      (applyOps (emptyStore ℚ 1) [Op.add ("hello") [0] ("s1") ("2024")]) := by
    simp [applyOps, applyOp, MemoryStore.add, emptyStore, MemoryStore.list,
      List.insertionSort, List.orderedInsert]
  exact ⟨hmem,
    (C10_nonempty_text_invariant 1 [Op.add ("hello") [0] ("s1") ("2024")]
      (by decide)).1 _ hmem⟩

/-- Counterexample to C10 as stated: add does not validate text, so adding
the empty text succeeds and the record is reachable via list with empty
text. -/
theorem C10_empty_text_counterexample :
    ∃ m ∈ MemoryStore.list
        (applyOps (emptyStore ℚ 1) [Op.add ("") [0] ("s1") ("2024")]),
      m.text = "" := by
  refine ⟨⟨1, (""), ("2024"), ("s1")⟩, ?_, rfl⟩
  simp [applyOps, applyOp, MemoryStore.add, emptyStore, MemoryStore.list,
    List.insertionSort, List.orderedInsert]

-- ============================================================================
-- Helper lemmas: fence stripping and name collection
-- ============================================================================

/-- Trimming a fence-wrapped reply changes nothing: it starts and ends with
a backtick. -/
theorem jsTrim_wrap (tagged : Bool) (s : String) :
    jsTrim (wrapFence tagged s) = wrapFence tagged s := by
  cases tagged <;>
  · refine String.ext ?_
    simp [jsTrim, wrapFence, dropTrailingWs, List.dropWhile_cons, jsWs,
      List.reverse_append]

theorem stripClosing_append (core : List Char) :
    stripClosing (core ++ ('\n' :: '`' :: '`' :: '`' :: [])) = dropTrailingWs core := by
  rw [stripClosing]
  have ht : dropTrailingWs (core ++ ('\n' :: '`' :: '`' :: '`' :: [])) =
      core ++ ('\n' :: '`' :: '`' :: '`' :: []) := by
    rw [dropTrailingWs]
    simp [List.reverse_append, List.dropWhile_cons, jsWs]
  rw [ht]
  have hsuf : fenceMarker.isSuffixOf (core ++ ('\n' :: '`' :: '`' :: '`' :: [])) = true := by
    simp [List.isSuffixOf, List.reverse_append, List.isPrefixOf, fenceMarker]
  simp only [hsuf, if_true]
  have hlen : (core ++ ('\n' :: '`' :: '`' :: '`' :: [])).length - 3 = core.length + 1 := by
    simp
  rw [hlen, List.take_append_eq_append_take]
  have : core.take (core.length + 1) = core := List.take_of_length_le (by omega)
  rw [this]
  have h2 : (('\n' :: '`' :: '`' :: '`' :: []) : List Char).take (core.length + 1 - core.length) =
      ['\n'] := by
    have : core.length + 1 - core.length = 1 := by omega
    rw [this]
    rfl
  rw [h2, dropTrailingWs, dropTrailingWs]
  simp [List.reverse_append, List.dropWhile_cons, jsWs]

theorem stripFences_wrap (tagged : Bool) (s : String) :
    stripFences (wrapFence tagged s) = jsTrim s := by
  cases tagged
  · have hd : (wrapFence false s).data =
        '`' :: '`' :: '`' :: '\n' :: (s.data ++ ('\n' :: '`' :: '`' :: '`' :: [])) := by
      simp [wrapFence]
    rw [stripFences]
    simp only [hd]
    have hpre : fenceMarker.isPrefixOf
        ('`' :: '`' :: '`' :: '\n' :: (s.data ++ ('\n' :: '`' :: '`' :: '`' :: []))) = true := by
      simp [fenceMarker, List.isPrefixOf]
    simp only [hpre, if_true, List.drop_succ_cons, List.drop_zero]
    have hjson : (("json").data).isPrefixOf
        ('\n' :: (s.data ++ ('\n' :: '`' :: '`' :: '`' :: []))) = false := by
      simp [List.isPrefixOf]
    simp only [hjson, Bool.false_eq_true, if_false, List.dropWhile_cons]
    norm_num [jsWs]
    rw [List.dropWhile_append]
    by_cases hcore : (s.data.dropWhile jsWs).isEmpty
    · rw [if_pos hcore]
      have hc : s.data.dropWhile jsWs = [] := by simpa [List.isEmpty_iff] using hcore
      rw [jsTrim, hc]
      rfl
    · rw [if_neg hcore, stripClosing_append, jsTrim]
  · have hd : (wrapFence true s).data =
        '`' :: '`' :: '`' :: 'j' :: 's' :: 'o' :: 'n' :: '\n' ::
          (s.data ++ ('\n' :: '`' :: '`' :: '`' :: [])) := by
      simp [wrapFence]
    rw [stripFences]
    simp only [hd]
    have hpre : fenceMarker.isPrefixOf
        ('`' :: '`' :: '`' :: 'j' :: 's' :: 'o' :: 'n' :: '\n' ::
          (s.data ++ ('\n' :: '`' :: '`' :: '`' :: []))) = true := by
      simp [fenceMarker, List.isPrefixOf]
    simp only [hpre, if_true, List.drop_succ_cons, List.drop_zero]
    have hjson : (("json").data).isPrefixOf
        ('j' :: 's' :: 'o' :: 'n' :: '\n' :: (s.data ++ ('\n' :: '`' :: '`' :: '`' :: []))) = true := by
      simp [List.isPrefixOf]
    simp only [hjson, if_true, List.drop_succ_cons, List.drop_zero, List.dropWhile_cons]
    norm_num [jsWs]
    rw [List.dropWhile_append]
    by_cases hcore : (s.data.dropWhile jsWs).isEmpty
    · rw [if_pos hcore]
      have hc : s.data.dropWhile jsWs = [] := by simpa [List.isEmpty_iff] using hcore
      rw [jsTrim, hc]
      rfl
    · rw [if_neg hcore, stripClosing_append, jsTrim]

theorem dedupFirst_sublist : ∀ l : List String, List.Sublist (dedupFirst l) l := by
  intro l
  induction l with
  | nil => rw [dedupFirst]
  | cons x xs ih =>
    rw [dedupFirst]
    exact List.Sublist.cons₂ x ((List.filter_sublist _).trans ih)

theorem dedupFirst_nodup : ∀ l : List String, (dedupFirst l).Nodup := by
  intro l
  induction l with
  | nil => simp [dedupFirst]
  | cons x xs ih =>
    rw [dedupFirst]
    refine List.Pairwise.cons ?_ (ih.filter _)
    intro y hy
    have := (List.mem_filter.mp hy).2
    simp only [ne_eq, decide_eq_true_eq] at this
    exact fun he => this (he ▸ rfl)

theorem dedupFirst_filter (p : String → Bool) :
    ∀ l : List String, dedupFirst (l.filter p) = (dedupFirst l).filter p := by
  intro l
  induction l with
  | nil => rfl
  | cons y ys ih =>
    rw [List.filter_cons]
    by_cases hp : p y = true
    · simp only [hp, if_true]
      rw [dedupFirst, dedupFirst, ih, List.filter_cons]
      simp only [hp, if_true]
      rw [List.filter_filter, List.filter_filter]
      congr 1
      apply List.filter_congr
      intro a _
      rw [Bool.and_comm]
    · simp only [hp, Bool.false_eq_true, if_false]
      rw [ih, dedupFirst, List.filter_cons]
      simp only [hp, Bool.false_eq_true, if_false]
      rw [List.filter_filter]
      apply List.filter_congr
      intro a _
      by_cases ha : a = y
      · simp [ha, hp]
      · simp [ha]

theorem collectNames_eq_specNames (texts : List String) :
    collectNames texts = specNames texts := by
  suffices h : ∀ (ts : List String) (acc : List String),
      List.foldl (fun ns t0 =>
        let t := jsTrim t0
        if t ≠ ("") ∧ t ∉ ns then ns ++ [t] else ns) acc ts =
      acc ++ dedupFirst (((ts.map jsTrim).filter (fun t => t ≠ (""))).filter
        (fun t => t ∉ acc)) by
    have h0 := h texts []
    have hself : ((texts.map jsTrim).filter (fun t => t ≠ (""))).filter
        (fun t => t ∉ ([] : List String)) =
        (texts.map jsTrim).filter (fun t => t ≠ ("")) := by
      rw [List.filter_eq_self]
      intro a _
      simp
    rw [hself] at h0
    simpa [collectNames, specNames] using h0
  intro ts
  induction ts with
  | nil =>
    intro acc
    simp [dedupFirst]
  | cons t0 rest ih =>
    intro acc
    simp only [List.foldl_cons, List.map_cons, List.filter_cons]
    by_cases h1 : jsTrim t0 = ""
    · rw [if_neg (by simp [h1])]
      have : (decide (jsTrim t0 ≠ (""))) = false := by simp [h1]
      rw [this]
      simp only [Bool.false_eq_true, if_false]
      exact ih acc
    · by_cases h2 : jsTrim t0 ∈ acc
      · rw [if_neg (by simp [h2])]
        have d1 : (decide (jsTrim t0 ≠ (""))) = true := by simp [h1]
        rw [d1]
        simp only [if_true]
        rw [List.filter_cons]
        have d2 : (decide (jsTrim t0 ∉ acc)) = false := by simp [h2]
        rw [d2]
        simp only [Bool.false_eq_true, if_false]
        exact ih acc
      · rw [if_pos ⟨h1, h2⟩]
        rw [ih (acc ++ [jsTrim t0])]
        have d1 : (decide (jsTrim t0 ≠ (""))) = true := by simp [h1]
        rw [d1]
        simp only [if_true]
        rw [List.filter_cons]
        have d2 : (decide (jsTrim t0 ∉ acc)) = true := by simp [h2]
        rw [d2]
        simp only [if_true, dedupFirst]
        have hff : ∀ l : List String, l.filter (fun x => x ∉ acc ++ [jsTrim t0]) =
            (l.filter (fun x => x ∉ acc)).filter (fun y => y ≠ jsTrim t0) := by
          intro l
          rw [List.filter_filter]
          apply List.filter_congr
          intro a _
          simp [List.mem_append, not_or, Bool.and_comm]
        rw [hff, dedupFirst_filter, List.append_assoc, List.singleton_append]

-- ============================================================================
-- C4: the capture step and nested declarations
-- ============================================================================

/-- C4: evaluation of the capture step at the failing input.  The source
calls query.captures(tree.rootNode) with no maxStartDepth option, although
its own comment states that maxStartDepth 0 restricts matches to top-level
declarations; consequently the typescript query captures the name of the
nested inner function as well.  Restricting matches to the root's immediate
children — the behaviour the comment and the spec describe — captures only
the top-level name. -/
theorem C4_nested_declaration_captured :
    (queryCaptures typescriptQuery nestedFnTree).map TSNode.txt =
      [("outer"), ("inner")] ∧
    (topLevelCaptures typescriptQuery nestedFnTree).map TSNode.txt =
      [("outer")] := by
  constructor <;> rfl

-- ============================================================================
-- C7: extractSignature formatting
-- ============================================================================

/-- C7: extractSignature returns the path joined with the captured nodes'
texts, whitespace-trimmed, empty names dropped, deduplicated by exact string
equality with first-seen order preserved (the name list is a sublist of the
trimmed capture texts); it returns none exactly when no names remain, which
covers zero captures and empty content. -/
theorem C7_extract_signature_format (filePath : String)
    (pats : List QueryPattern) (root : TSNode) :
    (extractSignature filePath pats root = none ↔
      specNames ((queryCaptures pats root).map TSNode.txt) = []) ∧
    (specNames ((queryCaptures pats root).map TSNode.txt) ≠ [] →
      extractSignature filePath pats root =
        some (filePath ++ (" | ") ++ String.intercalate (" | ")
          (specNames ((queryCaptures pats root).map TSNode.txt)))) ∧
    (specNames ((queryCaptures pats root).map TSNode.txt)).Nodup ∧
    List.Sublist (specNames ((queryCaptures pats root).map TSNode.txt))
      (((queryCaptures pats root).map TSNode.txt).map jsTrim) ∧
    (∀ n ∈ specNames ((queryCaptures pats root).map TSNode.txt), n ≠ "") := by
  have hcoll := collectNames_eq_specNames ((queryCaptures pats root).map TSNode.txt)
  have hsub : List.Sublist (specNames ((queryCaptures pats root).map TSNode.txt))
      (((queryCaptures pats root).map TSNode.txt).map jsTrim) := by
    rw [specNames]
    exact (dedupFirst_sublist _).trans (List.filter_sublist _)
  refine ⟨?_, ?_, ?_, hsub, ?_⟩
  · rw [extractSignature]
    simp only [hcoll]
    by_cases h : specNames ((queryCaptures pats root).map TSNode.txt) = []
    · simp [h]
    · simp [h]
  · intro h
    rw [extractSignature]
    simp only [hcoll]
    rw [if_neg h]
  · rw [specNames]
    exact dedupFirst_nodup _
  · intro n hn
    rw [specNames] at hn
    have hn' := (dedupFirst_sublist _).subset hn
    have := (List.mem_filter.mp hn').2
    simpa using this

/-- Witness for C7 at a concrete input: a one-class typescript file. -/
theorem C7_extract_signature_format_witness :
    extractSignature ("a.ts") typescriptQuery
      (.mk ("program") none ("class A {}")
        [.mk ("class_declaration") none ("class A {}")
          [.mk ("type_identifier") (some ("name")) ("A") []]]) =
      some ("a.ts | A") :=
  (C7_extract_signature_format ("a.ts") typescriptQuery
    (.mk ("program") none ("class A {}")
      [.mk ("class_declaration") none ("class A {}")
        [.mk ("type_identifier") (some ("name")) ("A") []]])).2.1 (by decide)

-- ============================================================================
-- C5: defensive response parsing
-- ============================================================================

/-- C5 (amended): parseResponse is total; a markdown code-fence wrapper,
with or without the json language tag, is stripped first, so a fenced reply
parses like the bare reply; when direct JSON parsing of the stripped text
fails, the parser takes the substring from the first opening bracket to the
last closing bracket of the text and parses that instead; when both
attempts fail the result is the empty list. -/
theorem C5_parse_response_defensive (s : String) :
    (fenceMarker.isPrefixOf (jsTrim s).data = false →
      parseResponse (wrapFence true s) = parseResponse s ∧
      parseResponse (wrapFence false s) = parseResponse s) ∧
    (jsonParse (stripFences (jsTrim s)) = none →
      parseResponse s = fallbackOf (stripFences (jsTrim s))) ∧
    (jsonParse (stripFences (jsTrim s)) = none →
      fallbackFails (stripFences (jsTrim s)) →
      parseResponse s = []) := by
  have hunfold : ∀ r : String, parseResponse r =
      match jsonParse (stripFences (jsTrim r)) with
      | some parsed => itemsOf parsed
      | none =>
        match firstToLastBracket (stripFences (jsTrim r)) with
        | some sub =>
          match jsonParse sub with
          | some parsed => itemsOf parsed
          | none => []
        | none => [] := fun r => rfl
  refine ⟨?_, ?_, ?_⟩
  · intro h
    have hzz : stripFences (jsTrim s) = jsTrim s := by
      rw [stripFences]
      simp only [h, Bool.false_eq_true, if_false]
    constructor <;>
    · rw [hunfold, hunfold, jsTrim_wrap, stripFences_wrap, hzz]
  · intro h
    rw [hunfold, h]
    rfl
  · intro h hfail
    rw [hunfold, h]
    cases hb : firstToLastBracket (stripFences (jsTrim s)) with
    | none => rfl
    | some sub =>
      show (match jsonParse sub with
        | some parsed => itemsOf parsed
        | none => ([] : List ExtractedMemory)) = []
      rw [hfail sub hb]

/-- Witness for C5 at a concrete input: an unparseable bare reply with no
brackets, fenced and bare. -/
theorem C5_parse_response_defensive_witness :
    (parseResponse (wrapFence true ("not json")) = parseResponse ("not json") ∧
      parseResponse (wrapFence false ("not json")) = parseResponse ("not json")) ∧
    parseResponse ("not json") = fallbackOf (stripFences (jsTrim ("not json"))) ∧
    parseResponse ("not json") = [] := by
  have h := C5_parse_response_defensive ("not json")
  exact ⟨h.1 (by decide), h.2.1 (by rfl), h.2.2 (by rfl) (fun sub hsub => nomatch hsub)⟩

/-- Counterexample to C5 as stated: on a reply with prose after the array
that contains a stray closing bracket, the greedy first-to-last bracket
substring fails to parse and the source returns nothing, while locating the
first balanced top-level array literal — the behaviour the claim describes —
would succeed. -/
theorem C5_greedy_bracket_counterexample :
    parseResponse ("see [\x7b\"text\":\"a\",\"rationale\":\"b\"\x7d] end ]") = [] ∧
    parseResponseSpec ("see [\x7b\"text\":\"a\",\"rationale\":\"b\"\x7d] end ]") =
      [⟨("a"), ("b")⟩] ∧
    ([] : List ExtractedMemory) ≠ [⟨("a"), ("b")⟩] := by
  refine ⟨rfl, rfl, by decide⟩

-- ============================================================================
-- C9: element validation
-- ============================================================================

/-- The validation of one element: accepted exactly when valid, contributing
its trimmed fields. -/
theorem toMemory_eq (item : Json) :
    toMemory? item =
      if isValidItem item = true then some (trimmedMemory item) else none := by
  cases item with
  | obj fields =>
    simp only [toMemory?, isValidItem, trimmedMemory, fieldStr]
    cases htext : jget fields ("text") with
    | none => simp
    | some jt =>
      cases jt with
      | str t =>
        cases hrat : jget fields ("rationale") with
        | none => simp
        | some jr =>
          cases jr with
          | str r =>
            by_cases ht : jsTrim t = ("")
            · simp [ht]
            · simp [ht]
          | null => simp
          | bool b => simp
          | num raw => simp
          | arr items => simp
          | obj fs => simp
      | null => simp
      | bool b => simp
      | num raw => simp
      | arr items => simp
      | obj fs => simp
  | null => simp [toMemory?, isValidItem]
  | bool b => simp [toMemory?, isValidItem]
  | num raw => simp [toMemory?, isValidItem]
  | str t => simp [toMemory?, isValidItem]
  | arr items => simp [toMemory?, isValidItem]

/-- C9: an element of the parsed array contributes a memory exactly when it
is an object whose text field is a string non-empty after trimming and
whose rationale field is a string; accepted elements contribute their
trimmed fields, rejected elements are dropped, and order is preserved: the
loop equals filtering by validity then mapping to the trimmed memory.  When
parseResponse parses its (fence-stripped, trimmed) input to that array, its
result is exactly that list. -/
theorem C9_validation_filter (items : List Json) :
    validateItems items = (items.filter isValidItem).map trimmedMemory ∧
    ∀ s : String, jsonParse (stripFences (jsTrim s)) = some (Json.arr items) →
      parseResponse s = (items.filter isValidItem).map trimmedMemory := by
  have hval : validateItems items = (items.filter isValidItem).map trimmedMemory := by
    induction items with
    | nil => rfl
    | cons it rest ih =>
      simp only [validateItems, List.filterMap_cons, List.filter_cons] at ih ⊢
      rw [toMemory_eq it]
      by_cases h : isValidItem it = true
      · simp only [h, if_true, List.map_cons]
        rw [ih]
      · simp only [h, Bool.false_eq_true, if_false]
        exact ih
  refine ⟨hval, ?_⟩
  intro s hs
  have hunfold : parseResponse s =
      match jsonParse (stripFences (jsTrim s)) with
      | some parsed => itemsOf parsed
      | none =>
        match firstToLastBracket (stripFences (jsTrim s)) with
        | some sub =>
          match jsonParse sub with
          | some parsed => itemsOf parsed
          | none => []
        | none => [] := rfl
  rw [hunfold, hs]
  exact hval

/-- Witness for C9 at a concrete input: an array mixing one valid object
(with padding to trim), one non-object, and one object with empty text. -/
theorem C9_validation_filter_witness :
    parseResponse ("[\x7b\"text\":\" a \",\"rationale\":\" b \"\x7d, \"junk\", \x7b\"text\":\"\",\"rationale\":\"r\"\x7d]") =
      [⟨("a"), ("b")⟩] := by
  have h := (C9_validation_filter
    [Json.obj [(("text"), Json.str (" a ")), (("rationale"), Json.str (" b "))],
     Json.str ("junk"),
     Json.obj [(("text"), Json.str ("")), (("rationale"), Json.str ("r"))]]).2
    ("[\x7b\"text\":\" a \",\"rationale\":\" b \"\x7d, \"junk\", \x7b\"text\":\"\",\"rationale\":\"r\"\x7d]")
    (by rfl)
  rw [h]
  rfl
